import Mathlib

/-!
Verification of the docker-rl rate-limit checker: a shallow embedding of
`src/limit.rs` (the `Limit` type, `parse_header`, `get_limit`) and of the
sequential token-then-probe pipeline of `src/main.rs`, with the token and
error modules modelled from the specification where their source is absent.
Network I/O is made explicit: each network call's outcome (transport error
or an HTTP response with status and headers) is an input to the embedded
function.
-/

namespace DockerRl

/-- Modelled from the spec: the `err` module (`DrlErr`, `ExitCode`) is not in
the sources; the spec's error taxonomy names four kinds — Connection,
Parsing, OverLimit, Auth — carried with a human-readable message.
`limit.rs` itself constructs Connection, Parsing and OverLimit. -/
inductive ExitCode where
  | Connection
  | Parsing
  | OverLimit
  | Auth
deriving DecidableEq, Repr

/-- Modelled from the spec: an error value of kind `ExitCode` with a message,
as constructed by `DrlErr::new(msg, code)` in the sources. -/
structure DrlErr where
  msg : String
  code : ExitCode
deriving DecidableEq, Repr

/-- A bearer token, as the `Token` struct of the (absent) `token` module:
an opaque string field `token`. -/
structure Token where
  token : String
deriving DecidableEq, Repr

/-- The current state of the rate limit (`Limit` in `limit.rs`):
`remaining` requests out of `total`. Counters are `u64` in the source;
parsing guarantees values below `2^64`. -/
structure Limit where
  remaining : Nat
  total : Nat
deriving DecidableEq, Repr

/-- `impl fmt::Display for Limit`: writes `"{remaining}/{total}"`. -/
def Limit.display (l : Limit) : String :=
  toString l.remaining ++ "/" ++ toString l.total

/-- An HTTP header value is a sequence of bytes (`HeaderValue` in the `http`
crate underlying `reqwest`). -/
structure HeaderValue where
  bytes : List Nat
deriving DecidableEq, Repr

/-- `HeaderValue::to_str` succeeds exactly when every byte is visible ASCII
(32–126) or horizontal tab (9). -/
def visibleAscii (b : Nat) : Bool :=
  (decide (32 ≤ b) && decide (b < 127)) || decide (b = 9)

/-- `HeaderValue::to_str`: yields the text of the value when all bytes are
visible ASCII, otherwise fails (`ToStrError`). The text is returned as a
character list. -/
def HeaderValue.toStrChars (hv : HeaderValue) : Option (List Char) :=
  if hv.bytes.all visibleAscii then some (hv.bytes.map Char.ofNat) else none

/-- A header map: association list from (lowercased) header names to values;
`HeaderMap::get` returns the first value for the name. -/
structure HeaderMap where
  entries : List (String × HeaderValue)
deriving DecidableEq, Repr

/-- `HeaderMap::get`: first entry whose name matches the key. -/
def HeaderMap.get (h : HeaderMap) (key : String) : Option HeaderValue :=
  (h.entries.find? (fun p => p.1 == key)).map Prod.snd

/-- Rust's `ParseIntError` kinds reachable when parsing `u64`. -/
inductive ParseIntError where
  | empty
  | invalidDigit
  | posOverflow
deriving DecidableEq, Repr

/-- `Display` of `ParseIntError`. -/
def ParseIntError.display : ParseIntError → String
  | .empty => "cannot parse integer from empty string"
  | .invalidDigit => "invalid digit found in string"
  | .posOverflow => "number too large to fit in target type"

/-- `char::to_digit(10)`: the value of an ASCII decimal digit. -/
def digitVal (c : Char) : Option Nat :=
  if '0' ≤ c ∧ c ≤ '9' then some (c.toNat - 48) else none

/-- The digit-accumulation loop of `u64::from_str`: multiply the accumulator
by 10 and add each digit, with `u64` overflow checked at each step
(`checked_mul` then `checked_add`). -/
def u64Go : List Char → Nat → Except ParseIntError Nat
  | [], acc => .ok acc
  | c :: rest, acc =>
    if 2 ^ 64 ≤ acc * 10 then .error .posOverflow
    else
      match digitVal c with
      | none => .error .invalidDigit
      | some d =>
        if 2 ^ 64 ≤ acc * 10 + d then .error .posOverflow
        else u64Go rest (acc * 10 + d)

/-- `u64::from_str` on the characters of the input: empty input is an
`Empty` error; a leading `+` is skipped (a lone `+` is an invalid digit);
then digits accumulate with overflow checking. -/
def u64FromStrChars (cs : List Char) : Except ParseIntError Nat :=
  match cs with
  | [] => .error .empty
  | c :: rest =>
    if c = '+' then
      match rest with
      | [] => .error .invalidDigit
      | _ => u64Go rest 0
    else u64Go (c :: rest) 0

/-- `parse_header` in `limit.rs`: look up `key` in `headers` (missing header
⇒ Parsing error), read the value as text (`to_str` failure ⇒ Parsing error),
truncate at the first `;` (or keep the whole value), and parse the prefix as
a `u64` (failure ⇒ Parsing error). -/
def parse_header (headers : HeaderMap) (key : String) : Except DrlErr Nat :=
  match headers.get key with
  | none => .error ⟨"error parsing rate limit", .Parsing⟩
  | some header =>
    match header.toStrChars with
    | none =>
      .error ⟨"error parsing rate limit: failed to convert header to a str",
        .Parsing⟩
    | some value =>
      match u64FromStrChars (value.takeWhile (fun c => c != ';')) with
      | .ok n => .ok n
      | .error e =>
        .error ⟨"error parsing rate limit: " ++ e.display, .Parsing⟩

/-- The canonical reason phrase of an HTTP status code, as the `http` crate's
`StatusCode::canonical_reason` (table abridged to common codes; unknown codes
yield `none`, rendered as a placeholder by `Display`). -/
def canonicalReason (code : Nat) : Option String :=
  if code = 200 then some "OK"
  else if code = 401 then some "Unauthorized"
  else if code = 403 then some "Forbidden"
  else if code = 404 then some "Not Found"
  else if code = 429 then some "Too Many Requests"
  else if code = 500 then some "Internal Server Error"
  else if code = 503 then some "Service Unavailable"
  else none

/-- `Display` of `StatusCode`: the numeric code, a space, and the canonical
reason phrase (or a placeholder when unknown). -/
def statusDisplay (code : Nat) : String :=
  toString code ++ (" " ++ ((canonicalReason code).getD "<unknown status code>"))

/-- An HTTP response as `get_limit` observes it: status code and headers. -/
structure Response where
  status : Nat
  headers : HeaderMap
deriving DecidableEq, Repr

/-- The outcome of `req.send().await` on the probe request: either a
transport-level failure with its message, or a response. -/
inductive ProbeOutcome where
  | sendError (msg : String)
  | response (resp : Response)
deriving DecidableEq, Repr

/-- `get_limit` in `limit.rs`, over the outcome of the single probe request
made with bearer token `t` (the token only authenticates the request; the
response is the input here). Transport failure ⇒ Connection error; then the
status is classified: 200 proceeds, 429 ⇒ OverLimit error, anything else ⇒
Connection error showing the status; on 200 the `ratelimit-limit` header is
parsed into `total` and `ratelimit-remaining` into `remaining`. -/
def get_limit (t : Token) (outcome : ProbeOutcome) : Except DrlErr Limit :=
  let _ := t
  match outcome with
  | .sendError e =>
    .error ⟨"failed to connect to docker.io: " ++ e, .Connection⟩
  | .response resp =>
    if resp.status = 200 then
      match parse_header resp.headers "ratelimit-limit" with
      | .error e => .error e
      | .ok total =>
        match parse_header resp.headers "ratelimit-remaining" with
        | .error e => .error e
        | .ok remaining => .ok ⟨remaining, total⟩
    else if resp.status = 429 then
      .error ⟨"over limit", .OverLimit⟩
    else
      .error ⟨"error connecting to docker.io: " ++ statusDisplay resp.status,
        .Connection⟩

/-- The outcome of the token-endpoint request: a transport-level failure with
its message, or a response with a status code and, abstracting the JSON body,
`some tok` when the body is valid JSON carrying a `token` field and `none`
otherwise. -/
inductive TokenOutcome where
  | netError (msg : String)
  | response (status : Nat) (tokenField : Option String)
deriving DecidableEq, Repr

/-- Modelled from the spec: `get_anon_token` of the absent `token` module.
An unauthenticated request to the token endpoint; transport failure ⇒
Connection error; a body without the expected `token` field ⇒ Parsing error;
otherwise the token. -/
def get_anon_token (out : TokenOutcome) : Except DrlErr Token :=
  match out with
  | .netError e =>
    .error ⟨"failed to connect to docker.io: " ++ e, .Connection⟩
  | .response _ tokenField =>
    match tokenField with
    | some tok => .ok ⟨tok⟩
    | none => .error ⟨"error parsing token", .Parsing⟩

/-- Modelled from the spec: `get_userpass_token` of the absent `token`
module. The same request with HTTP Basic credentials; additionally an
authentication rejection (HTTP 401/403) is surfaced as an Auth error,
distinct from the Connection error of a transport failure; transport failure
⇒ Connection error; unparseable body ⇒ Parsing error. -/
def get_userpass_token (user pass : String) (out : TokenOutcome) :
    Except DrlErr Token :=
  let _ := user
  let _ := pass
  match out with
  | .netError e =>
    .error ⟨"failed to connect to docker.io: " ++ e, .Connection⟩
  | .response status tokenField =>
    if status = 401 ∨ status = 403 then
      .error ⟨"authentication failed", .Auth⟩
    else
      match tokenField with
      | some tok => .ok ⟨tok⟩
      | none => .error ⟨"error parsing token", .Parsing⟩

/-- `get_token` in `main.rs`: with a username, resolve the password (the
given one, or the externally prompted `promptedPass`) and request a
credentialed token; otherwise request an anonymous token. -/
def get_token (user pass : Option String) (promptedPass : String)
    (out : TokenOutcome) : Except DrlErr Token :=
  match user with
  | some u => get_userpass_token u (pass.getD promptedPass) out
  | none => get_anon_token out

/-- A network event of one run: the start or completion of the token request
or of the probe request. -/
inductive NetEvent where
  | tokenStart
  | tokenEnd
  | probeStart
  | probeEnd
deriving DecidableEq, Repr

/-- `main` in `main.rs` as an event trace: `get_token(opts).await` runs to
completion first; on error the run ends (the error is printed and the
process exits); only on success is `get_limit(&token).await` issued. The
trace records the start and completion of each network call in order. -/
def runTrace (user pass : Option String) (promptedPass : String)
    (tokOut : TokenOutcome) (probeOut : ProbeOutcome) :
    List NetEvent × Except DrlErr Limit :=
  match get_token user pass promptedPass tokOut with
  | .error e => ([.tokenStart, .tokenEnd], .error e)
  | .ok t =>
    ([.tokenStart, .tokenEnd, .probeStart, .probeEnd], get_limit t probeOut)

/-- Checker for strict sequencing of a trace: scanning left to right with the
number of outstanding calls and whether the token call has completed, a call
may start only when no call is outstanding, the probe may start only after
the token call has completed, and an end event must match an outstanding
call. -/
def seqCheck (tokenDone : Bool) (outstanding : Nat) : List NetEvent → Bool
  | [] => true
  | .tokenStart :: rest =>
    outstanding = 0 && seqCheck tokenDone 1 rest
  | .tokenEnd :: rest =>
    outstanding = 1 && seqCheck true 0 rest
  | .probeStart :: rest =>
    outstanding = 0 && tokenDone && seqCheck tokenDone 1 rest
  | .probeEnd :: rest =>
    outstanding = 1 && seqCheck tokenDone 0 rest

/-- A trace is well sequenced when the scan starts with no call outstanding
and the token call not yet completed. -/
def wellSequenced (tr : List NetEvent) : Bool :=
  seqCheck false 0 tr

/-- The numeric value of a string of decimal digit characters (most
significant first), mirroring the accumulator of `u64Go`. -/
def digitsToNat (ds : List Char) : Nat :=
  ds.foldl (fun a c => a * 10 + (c.toNat - 48)) 0

/-- Byte sequence of an ASCII string, for building concrete header values. -/
def asciiBytes (s : String) : List Nat :=
  s.data.map Char.toNat

/-- The three failure stages of `parse_header` on a header: the header is
absent from the map, its value is unreadable as text (`to_str` fails), or
the numeric prefix before the first `;` fails to parse as a `u64`. -/
def headerUnparseable (headers : HeaderMap) (key : String) : Prop :=
  headers.get key = none
  ∨ (∃ hv, headers.get key = some hv ∧ hv.toStrChars = none)
  ∨ (∃ hv cs, headers.get key = some hv ∧ hv.toStrChars = some cs ∧
      ∃ pe, u64FromStrChars (cs.takeWhile (fun c => c != ';')) = .error pe)

/-! ## Helper lemmas -/

/-- The digit accumulator never decreases. -/
theorem le_foldl_digits (ds : List Char) :
    ∀ acc : Nat, acc ≤ ds.foldl (fun a c => a * 10 + (c.toNat - 48)) acc := by
  induction ds with
  | nil => intro acc; exact le_refl _
  | cons c rest ih =>
    intro acc
    rw [List.foldl_cons]
    exact le_trans (by omega) (ih (acc * 10 + (c.toNat - 48)))

/-- `to_digit` on an ASCII decimal digit. -/
theorem digitVal_of_digit (c : Char) (h : '0' ≤ c ∧ c ≤ '9') :
    digitVal c = some (c.toNat - 48) := by
  simp [digitVal, h.1, h.2]

/-- A decimal digit is not `';'`. -/
theorem digit_ne_semi (c : Char) (h : '0' ≤ c ∧ c ≤ '9') : c ≠ ';' := by
  intro hc
  subst hc
  exact absurd h (by decide)

/-- A decimal digit is not `'+'`. -/
theorem digit_ne_plus (c : Char) (h : '0' ≤ c ∧ c ≤ '9') : c ≠ '+' := by
  intro hc
  subst hc
  exact absurd h (by decide)

/-- A decimal digit is a visible ASCII byte. -/
theorem visible_of_digit (c : Char) (h : '0' ≤ c ∧ c ≤ '9') :
    visibleAscii c.toNat = true := by
  have h1 : 48 ≤ c.toNat := Char.le_def.mp h.1
  have h2 : c.toNat ≤ 57 := Char.le_def.mp h.2
  simp [visibleAscii]
  omega

/-- On an all-digit input whose value fits in a `u64`, the accumulation loop
succeeds and returns the folded value. -/
theorem u64Go_ok_of_lt (ds : List Char) :
    ∀ acc : Nat, (∀ c ∈ ds, '0' ≤ c ∧ c ≤ '9') →
    ds.foldl (fun a c => a * 10 + (c.toNat - 48)) acc < 2 ^ 64 →
    u64Go ds acc = .ok (ds.foldl (fun a c => a * 10 + (c.toNat - 48)) acc) := by
  induction ds with
  | nil => intro acc _ _; rfl
  | cons c rest ih =>
    intro acc hd hlt
    rw [List.foldl_cons] at hlt ⊢
    have hc := hd c (List.mem_cons_self c rest)
    have hle := le_foldl_digits rest (acc * 10 + (c.toNat - 48))
    have h1 : ¬ 2 ^ 64 ≤ acc * 10 := by omega
    have h2 : ¬ 2 ^ 64 ≤ acc * 10 + (c.toNat - 48) := by omega
    simp only [u64Go, digitVal_of_digit c hc, if_neg h1, if_neg h2]
    exact ih (acc * 10 + (c.toNat - 48))
      (fun c' hm => hd c' (List.mem_cons_of_mem c hm)) hlt

/-- On an all-digit input whose value overflows a `u64`, the accumulation
loop fails (with a `PosOverflow` error), provided the accumulator is still
in range. -/
theorem u64Go_err_of_ge (ds : List Char) :
    ∀ acc : Nat, acc < 2 ^ 64 → (∀ c ∈ ds, '0' ≤ c ∧ c ≤ '9') →
    2 ^ 64 ≤ ds.foldl (fun a c => a * 10 + (c.toNat - 48)) acc →
    u64Go ds acc = .error .posOverflow := by
  induction ds with
  | nil =>
    intro acc hacc _ hge
    rw [List.foldl_nil] at hge
    omega
  | cons c rest ih =>
    intro acc hacc hd hge
    rw [List.foldl_cons] at hge
    have hc := hd c (List.mem_cons_self c rest)
    by_cases h1 : 2 ^ 64 ≤ acc * 10
    · simp only [u64Go, if_pos h1]
    · by_cases h2 : 2 ^ 64 ≤ acc * 10 + (c.toNat - 48)
      · simp only [u64Go, digitVal_of_digit c hc, if_neg h1, if_pos h2]
      · simp only [u64Go, digitVal_of_digit c hc, if_neg h1, if_neg h2]
        exact ih (acc * 10 + (c.toNat - 48)) (by omega)
          (fun c' hm => hd c' (List.mem_cons_of_mem c hm)) hge

/-- `u64::from_str` on a nonempty all-digit string whose value fits:
returns exactly that value. -/
theorem u64FromStrChars_ok (ds : List Char) (hne : ds ≠ [])
    (hd : ∀ c ∈ ds, '0' ≤ c ∧ c ≤ '9') (hlt : digitsToNat ds < 2 ^ 64) :
    u64FromStrChars ds = .ok (digitsToNat ds) := by
  cases ds with
  | nil => exact absurd rfl hne
  | cons c rest =>
    have hc := hd c (List.mem_cons_self c rest)
    simp only [u64FromStrChars, if_neg (digit_ne_plus c hc)]
    exact u64Go_ok_of_lt (c :: rest) 0 hd hlt

/-- `u64::from_str` on a nonempty all-digit string whose value overflows:
fails with `PosOverflow`. -/
theorem u64FromStrChars_overflow (ds : List Char)
    (hd : ∀ c ∈ ds, '0' ≤ c ∧ c ≤ '9') (hge : 2 ^ 64 ≤ digitsToNat ds) :
    u64FromStrChars ds = .error .posOverflow := by
  cases ds with
  | nil => exact absurd hge (by simp [digitsToNat])
  | cons c rest =>
    have hc := hd c (List.mem_cons_self c rest)
    simp only [u64FromStrChars, if_neg (digit_ne_plus c hc)]
    exact u64Go_err_of_ge (c :: rest) 0 (by positivity) hd hge

/-- Truncation at the first `;`: an all-digit prefix survives whole, and a
suffix that is empty or starts with `;` is dropped entirely. -/
theorem takeWhile_digits_semi (ds tail : List Char)
    (hd : ∀ c ∈ ds, '0' ≤ c ∧ c ≤ '9')
    (hs : tail = [] ∨ ∃ tl, tail = ';' :: tl) :
    (ds ++ tail).takeWhile (fun c => c != ';') = ds := by
  induction ds with
  | nil =>
    rcases hs with h | ⟨tl, h⟩ <;> subst h <;> simp [List.takeWhile]
  | cons c rest ih =>
    have hc := hd c (List.mem_cons_self c rest)
    have hne : (c != ';') = true := by
      simp [digit_ne_semi c hc]
    rw [List.cons_append, List.takeWhile_cons, hne]
    simp only [ite_true]
    rw [ih (fun c' hm => hd c' (List.mem_cons_of_mem c hm))]

/-- Reading a header value built from visible-ASCII characters yields those
characters back. -/
theorem toStrChars_of_visible (cs : List Char)
    (h : ∀ c ∈ cs, visibleAscii c.toNat = true) :
    HeaderValue.toStrChars ⟨cs.map Char.toNat⟩ = some cs := by
  have hall : (cs.map Char.toNat).all visibleAscii = true := by
    rw [List.all_eq_true]
    intro b hb
    rcases List.mem_map.mp hb with ⟨c, hc, rfl⟩
    exact h c hc
  simp only [HeaderValue.toStrChars, hall, if_true, List.map_map]
  have : (Char.ofNat ∘ Char.toNat) = id := by
    funext c
    exact Char.ofNat_toNat c
  rw [this, List.map_id]

/-- Every error `parse_header` produces is a Parsing error. -/
theorem parse_header_error_parsing (headers : HeaderMap) (key : String)
    (e : DrlErr) (h : parse_header headers key = .error e) :
    e.code = .Parsing := by
  unfold parse_header at h
  split at h
  · injection h with h'
    subst h'
    rfl
  · split at h
    · injection h with h'
      subst h'
      rfl
    · split at h
      · exact absurd h (by simp)
      · injection h with h'
        subst h'
        rfl

/-- Whenever a header is absent, unreadable as text, or its prefix fails to
parse, `parse_header` returns a Parsing error. -/
theorem parse_header_error_of_unparseable (headers : HeaderMap) (key : String)
    (h : headerUnparseable headers key) :
    ∃ e, parse_header headers key = .error e ∧ e.code = .Parsing := by
  rcases h with hnone | ⟨hv, hg, hts⟩ | ⟨hv, cs, hg, hts, pe, hpe⟩
  · exact ⟨⟨"error parsing rate limit", .Parsing⟩,
      by simp only [parse_header, hnone], rfl⟩
  · exact ⟨⟨"error parsing rate limit: failed to convert header to a str",
      .Parsing⟩, by simp only [parse_header, hg, hts], rfl⟩
  · exact ⟨⟨"error parsing rate limit: " ++ pe.display, .Parsing⟩,
      by simp only [parse_header, hg, hts, hpe], rfl⟩

/-! ## Claims -/

/-- C1: for every rate-limit header value consisting of a numeric prefix
followed by an arbitrary `;`-suffix (or by nothing), `parse_header`
truncates the raw value at the first `;` (or uses the whole value when no
`;` is present) and parses the prefix as an unsigned integer, yielding
exactly the integer prefix value. -/
theorem parse_header_numeric_value (headers : HeaderMap) (key : String)
    (hv : HeaderValue) (ds tail : List Char)
    (hget : headers.get key = some hv)
    (hbytes : hv.bytes = (ds ++ tail).map Char.toNat)
    (hne : ds ≠ [])
    (hd : ∀ c ∈ ds, '0' ≤ c ∧ c ≤ '9')
    (htail : tail = [] ∨ ∃ tl, tail = ';' :: tl)
    (hvis : ∀ c ∈ tail, visibleAscii c.toNat = true)
    (hlt : digitsToNat ds < 2 ^ 64) :
    parse_header headers key = .ok (digitsToNat ds) := by
  obtain ⟨bytes⟩ := hv
  simp only at hbytes
  subst hbytes
  have hvisAll : ∀ c ∈ ds ++ tail, visibleAscii c.toNat = true := by
    intro c hc
    rcases List.mem_append.mp hc with h | h
    · exact visible_of_digit c (hd c h)
    · exact hvis c h
  have hts := toStrChars_of_visible (ds ++ tail) hvisAll
  simp only [parse_header, hget, hts, takeWhile_digits_semi ds tail hd htail,
    u64FromStrChars_ok ds hne hd hlt]

/-- C1 witness: the header value `"100;w=21600"` parses to `100`. -/
theorem parse_header_numeric_value_witness :
    parse_header ⟨[("ratelimit-limit", ⟨asciiBytes "100;w=21600"⟩)]⟩
      "ratelimit-limit" = .ok 100 := by
  have h := parse_header_numeric_value
    ⟨[("ratelimit-limit", ⟨asciiBytes "100;w=21600"⟩)]⟩ "ratelimit-limit"
    ⟨asciiBytes "100;w=21600"⟩ "100".data ";w=21600".data
    rfl (by decide) (by decide) (by decide)
    (Or.inr ⟨"w=21600".data, by decide⟩) (by decide) (by decide)
  have h100 : digitsToNat "100".data = 100 := by decide
  rw [h100] at h
  exact h

/-- C2: on a 200 probe response with headers
`ratelimit-limit: 100;w=21600` and `ratelimit-remaining: 97;w=21600`,
`get_limit` returns `Limit` with `remaining = 97` and `total = 100`
(`ratelimit-limit` maps to `total`, `ratelimit-remaining` to `remaining`),
and that `Limit` displays as `"97/100"`. -/
theorem get_limit_scenario_200 :
    get_limit ⟨"abc"⟩ (.response ⟨200,
      ⟨[("ratelimit-limit", ⟨asciiBytes "100;w=21600"⟩),
        ("ratelimit-remaining", ⟨asciiBytes "97;w=21600"⟩)]⟩⟩)
      = .ok ⟨97, 100⟩ ∧
    Limit.display ⟨97, 100⟩ = "97/100" :=
  ⟨rfl, rfl⟩

/-- C3: a 429 probe response makes `get_limit` fail with an OverLimit error,
for every header map (header extraction is never reached). -/
theorem get_limit_429_overlimit (t : Token) (headers : HeaderMap) :
    get_limit t (.response ⟨429, headers⟩)
      = .error ⟨"over limit", .OverLimit⟩ :=
  rfl

/-- C4: on a 200 probe response, if either rate-limit header is absent,
unreadable as text, or has an unparseable numeric prefix, `get_limit` fails
with a Parsing error (so no default or zero-valued `Limit` is returned). -/
theorem get_limit_parsing_error (t : Token) (headers : HeaderMap)
    (h : headerUnparseable headers "ratelimit-limit"
      ∨ headerUnparseable headers "ratelimit-remaining") :
    ∃ e, get_limit t (.response ⟨200, headers⟩) = .error e
      ∧ e.code = .Parsing := by
  cases h1 : parse_header headers "ratelimit-limit" with
  | error e =>
    exact ⟨e, by simp [get_limit, h1], parse_header_error_parsing _ _ e h1⟩
  | ok total =>
    cases h2 : parse_header headers "ratelimit-remaining" with
    | error e =>
      exact ⟨e, by simp [get_limit, h1, h2],
        parse_header_error_parsing _ _ e h2⟩
    | ok remaining =>
      exfalso
      rcases h with hbad | hbad
      · obtain ⟨e, he, _⟩ := parse_header_error_of_unparseable _ _ hbad
        rw [h1] at he
        exact Except.noConfusion he
      · obtain ⟨e, he, _⟩ := parse_header_error_of_unparseable _ _ hbad
        rw [h2] at he
        exact Except.noConfusion he

/-- C4 witness: with no headers at all, `get_limit` on a 200 response fails
with a Parsing error. -/
theorem get_limit_parsing_error_witness :
    ∃ e, get_limit ⟨"abc"⟩ (.response ⟨200, ⟨[]⟩⟩) = .error e
      ∧ e.code = .Parsing :=
  get_limit_parsing_error ⟨"abc"⟩ ⟨[]⟩ (Or.inl (Or.inl rfl))

/-- C5: a probe response with a status other than 200 and 429 makes
`get_limit` fail with a Connection error whose message carries the observed
status code. -/
theorem get_limit_other_status_connection (t : Token) (status : Nat)
    (headers : HeaderMap) (h200 : status ≠ 200) (h429 : status ≠ 429) :
    ∃ e, get_limit t (.response ⟨status, headers⟩) = .error e
      ∧ e.code = .Connection
      ∧ ∃ pre suf, e.msg = pre ++ toString status ++ suf := by
  refine ⟨⟨"error connecting to docker.io: " ++ statusDisplay status,
    .Connection⟩, ?_, rfl, "error connecting to docker.io: ",
    " " ++ ((canonicalReason status).getD "<unknown status code>"), ?_⟩
  · simp [get_limit, h200, h429]
  · simp only [statusDisplay]
    rw [String.append_assoc]

/-- C5 witness: a 500 response yields a Connection error mentioning 500. -/
theorem get_limit_other_status_connection_witness :
    ∃ e, get_limit ⟨"abc"⟩ (.response ⟨500, ⟨[]⟩⟩) = .error e
      ∧ e.code = .Connection
      ∧ ∃ pre suf, e.msg = pre ++ toString 500 ++ suf :=
  get_limit_other_status_connection ⟨"abc"⟩ 500 ⟨[]⟩ (by decide) (by decide)

/-- C7: `get_limit` does not enforce `remaining ≤ total`: on a 200 response
whose two headers parse, it returns the parsed pair even when the remaining
value exceeds the total value. -/
theorem get_limit_no_local_invariant (t : Token) (headers : HeaderMap)
    (total remaining : Nat)
    (h1 : parse_header headers "ratelimit-limit" = .ok total)
    (h2 : parse_header headers "ratelimit-remaining" = .ok remaining)
    (_hless : total < remaining) :
    get_limit t (.response ⟨200, headers⟩) = .ok ⟨remaining, total⟩ := by
  simp [get_limit, h1, h2]

/-- C7 witness: headers `ratelimit-limit: 100`, `ratelimit-remaining: 200`
yield `Ok (Limit{remaining: 200, total: 100})`. -/
theorem get_limit_no_local_invariant_witness :
    get_limit ⟨"abc"⟩ (.response ⟨200,
      ⟨[("ratelimit-limit", ⟨asciiBytes "100"⟩),
        ("ratelimit-remaining", ⟨asciiBytes "200"⟩)]⟩⟩)
      = .ok ⟨200, 100⟩ :=
  get_limit_no_local_invariant ⟨"abc"⟩
    ⟨[("ratelimit-limit", ⟨asciiBytes "100"⟩),
      ("ratelimit-remaining", ⟨asciiBytes "200"⟩)]⟩
    100 200 rfl rfl (by decide)

/-- C9: a header value whose prefix before the first `;` is empty (the value
is empty or begins with `;`) makes `parse_header` fail with a Parsing error
rather than return zero or any default. -/
theorem parse_header_empty_prefix_error (headers : HeaderMap) (key : String)
    (hv : HeaderValue) (cs : List Char)
    (hget : headers.get key = some hv)
    (hbytes : hv.bytes = cs.map Char.toNat)
    (hvis : ∀ c ∈ cs, visibleAscii c.toNat = true)
    (hcs : cs = [] ∨ ∃ tl, cs = ';' :: tl) :
    ∃ e, parse_header headers key = .error e ∧ e.code = .Parsing := by
  obtain ⟨bytes⟩ := hv
  simp only at hbytes
  subst hbytes
  have hts := toStrChars_of_visible cs hvis
  have htake : cs.takeWhile (fun c => c != ';') = [] := by
    rcases hcs with h | ⟨tl, h⟩ <;> subst h <;> simp [List.takeWhile]
  apply parse_header_error_of_unparseable
  exact Or.inr (Or.inr ⟨⟨cs.map Char.toNat⟩, cs, hget, hts, .empty,
    by rw [htake]; rfl⟩)

/-- C9 witness: the header value `";w=21600"` makes `parse_header` fail with
a Parsing error. -/
theorem parse_header_empty_prefix_error_witness :
    ∃ e, parse_header ⟨[("ratelimit-limit", ⟨asciiBytes ";w=21600"⟩)]⟩
      "ratelimit-limit" = .error e ∧ e.code = .Parsing :=
  parse_header_empty_prefix_error
    ⟨[("ratelimit-limit", ⟨asciiBytes ";w=21600"⟩)]⟩ "ratelimit-limit"
    ⟨asciiBytes ";w=21600"⟩ ";w=21600".data rfl rfl (by decide)
    (Or.inr ⟨"w=21600".data, by decide⟩)

/-- C10: a header value whose numeric prefix is a decimal integer exceeding
`u64::MAX` makes `parse_header` (at type `u64`) fail with a Parsing error:
the value is never wrapped, truncated or saturated. -/
theorem parse_header_overflow_error (headers : HeaderMap) (key : String)
    (hv : HeaderValue) (ds tail : List Char)
    (hget : headers.get key = some hv)
    (hbytes : hv.bytes = (ds ++ tail).map Char.toNat)
    (hd : ∀ c ∈ ds, '0' ≤ c ∧ c ≤ '9')
    (htail : tail = [] ∨ ∃ tl, tail = ';' :: tl)
    (hvis : ∀ c ∈ tail, visibleAscii c.toNat = true)
    (hge : 2 ^ 64 ≤ digitsToNat ds) :
    ∃ e, parse_header headers key = .error e ∧ e.code = .Parsing := by
  obtain ⟨bytes⟩ := hv
  simp only at hbytes
  subst hbytes
  have hvisAll : ∀ c ∈ ds ++ tail, visibleAscii c.toNat = true := by
    intro c hc
    rcases List.mem_append.mp hc with h | h
    · exact visible_of_digit c (hd c h)
    · exact hvis c h
  have hts := toStrChars_of_visible (ds ++ tail) hvisAll
  apply parse_header_error_of_unparseable
  refine Or.inr (Or.inr ⟨⟨(ds ++ tail).map Char.toNat⟩, ds ++ tail, hget,
    hts, .posOverflow, ?_⟩)
  rw [takeWhile_digits_semi ds tail hd htail]
  exact u64FromStrChars_overflow ds hd hge

/-- C10 witness: the header value `"18446744073709551616"` (`2^64`) makes
`parse_header` fail with a Parsing error. -/
theorem parse_header_overflow_error_witness :
    ∃ e, parse_header
      ⟨[("ratelimit-limit", ⟨asciiBytes "18446744073709551616"⟩)]⟩
      "ratelimit-limit" = .error e ∧ e.code = .Parsing :=
  parse_header_overflow_error
    ⟨[("ratelimit-limit", ⟨asciiBytes "18446744073709551616"⟩)]⟩
    "ratelimit-limit" ⟨asciiBytes "18446744073709551616"⟩
    "18446744073709551616".data [] rfl (by simp [asciiBytes])
    (by decide) (Or.inl rfl) (by decide) (by decide)

/-- C6: a credentialed token request rejected with HTTP 401 or 403 fails
with an Auth error — distinct from the Connection error that a
network-level failure on the same call produces — and the probe request is
never started afterwards. -/
theorem userpass_reject_auth_error (u : String) (pass : Option String)
    (pp : String) (status : Nat) (body : Option String)
    (probeOut : ProbeOutcome) (m : String)
    (h : status = 401 ∨ status = 403) :
    (∃ e, (runTrace (some u) pass pp (.response status body) probeOut).2
        = .error e ∧ e.code = .Auth)
    ∧ NetEvent.probeStart
        ∉ (runTrace (some u) pass pp (.response status body) probeOut).1
    ∧ (∃ e, get_userpass_token u (pass.getD pp) (.netError m) = .error e
        ∧ e.code = .Connection ∧ e.code ≠ ExitCode.Auth) := by
  have htok : get_token (some u) pass pp (.response status body)
      = .error ⟨"authentication failed", .Auth⟩ := by
    rcases h with rfl | rfl <;> simp [get_token, get_userpass_token]
  refine ⟨⟨⟨"authentication failed", .Auth⟩, ?_, rfl⟩, ?_,
    ⟨⟨"failed to connect to docker.io: " ++ m, .Connection⟩, rfl, rfl,
      fun hh => ExitCode.noConfusion hh⟩⟩
  · simp [runTrace, htok]
  · simp [runTrace, htok]

/-- C6 witness: username `someuser`, token endpoint answering 401 — the run
fails with Auth, no probe is started, and a transport failure on the same
call is a Connection error. -/
theorem userpass_reject_auth_error_witness :
    (∃ e, (runTrace (some "someuser") none "pw"
        (.response 401 (some "abc")) (.sendError "x")).2
        = .error e ∧ e.code = .Auth)
    ∧ NetEvent.probeStart
        ∉ (runTrace (some "someuser") none "pw"
            (.response 401 (some "abc")) (.sendError "x")).1
    ∧ (∃ e, get_userpass_token "someuser"
          ((none : Option String).getD "pw") (.netError "dns failure")
          = .error e ∧ e.code = .Connection ∧ e.code ≠ ExitCode.Auth) :=
  userpass_reject_auth_error "someuser" none "pw" 401 (some "abc")
    (.sendError "x") "dns failure" (Or.inl rfl)

/-- C8: in every run the two network calls are strictly sequential — the
trace of `main` is well sequenced (a call starts only when none is
outstanding, and the probe only after the token call has completed), and the
probe starts exactly when the token request returned a token. -/
theorem run_strictly_sequential (user pass : Option String) (pp : String)
    (tokOut : TokenOutcome) (probeOut : ProbeOutcome) :
    wellSequenced (runTrace user pass pp tokOut probeOut).1 = true
    ∧ (NetEvent.probeStart ∈ (runTrace user pass pp tokOut probeOut).1
        ↔ ∃ t, get_token user pass pp tokOut = .ok t) := by
  cases htok : get_token user pass pp tokOut with
  | error e =>
    have htr : (runTrace user pass pp tokOut probeOut).1
        = [.tokenStart, .tokenEnd] := by
      simp [runTrace, htok]
    rw [htr]
    refine ⟨by decide, ⟨fun hm => absurd hm (by decide), fun he => ?_⟩⟩
    obtain ⟨t, ht⟩ := he
    exact Except.noConfusion ht
  | ok t =>
    have htr : (runTrace user pass pp tokOut probeOut).1
        = [.tokenStart, .tokenEnd, .probeStart, .probeEnd] := by
      simp [runTrace, htok]
    rw [htr]
    exact ⟨by decide, ⟨fun _ => ⟨t, rfl⟩, fun _ => by decide⟩⟩

end DockerRl
